import Mathlib

/-!
Verification of the chess TCP wire codec (src/tcp.rs).

The codec operates on Rust `String` values.  The primary model below
represents a string as a `List Char`, which is exact for ASCII data (every
frame the encoder emits is ASCII).  Rust's byte-oriented operations
(`str::len`, byte slicing `&s[i..j]`, `chars().nth`) are additionally
modelled at the byte level further down, where the distinction between
bytes and chars matters (char-boundary panics).
-/

set_option maxRecDepth 20000

namespace ChessTcp

/-- Piece colors, from the rules-engine crate interface. -/
inductive Color where
  | White
  | Black
deriving DecidableEq

/-- Piece kinds, from the rules-engine crate interface. -/
inductive PieceType where
  | Pawn
  | Knight
  | Bishop
  | Rook
  | Queen
  | King
deriving DecidableEq

/-- Game results, from the rules-engine crate interface. -/
inductive GameResult where
  | Checkmate (c : Color)
  | Stalemate
deriving DecidableEq

/-- A board position; the source's `Position` has `i8` fields `row`, `col`,
modelled as `Int` (all values occurring here are far from the `i8` bounds). -/
structure Position where
  row : Int
  col : Int
deriving DecidableEq

/-- Mirror of `Position::new(row, col)`. -/
def Position.new (row col : Int) : Position := ⟨row, col⟩

/-- A piece: its kind and its color. -/
structure Piece where
  piece_type : PieceType
  color : Color
deriving DecidableEq

/-- The rules-engine board: per-square occupancy of the 64 squares. -/
def Board : Type := Fin 8 → Fin 8 → Option Piece

/-- Modelled from the spec: the rules-engine board exposes per-square piece
lookup; a `Position` addresses one of the 64 squares when its row and column
are each in 0..7 (`board_to_fen` only queries such positions). -/
def Board.get (b : Board) (p : Position) : Option Piece :=
  if h : 0 ≤ p.row ∧ p.row < 8 ∧ 0 ≤ p.col ∧ p.col < 8 then
    b ⟨p.row.toNat, by omega⟩ ⟨p.col.toNat, by omega⟩
  else none

/-- Back-rank piece kind by column, for the standard chess starting position. -/
def backRankType : Nat → PieceType
  | 0 => .Rook
  | 1 => .Knight
  | 2 => .Bishop
  | 3 => .Queen
  | 4 => .King
  | 5 => .Bishop
  | 6 => .Knight
  | 7 => .Rook
  | _ => .Rook

/-- Modelled from the spec: the rules engine's `Board::start_pos` is the
standard chess starting position (white on rows 0 and 1, black on 6 and 7). -/
def Board.start_pos : Board := fun r c =>
  if r.val = 0 then some ⟨backRankType c.val, .White⟩
  else if r.val = 1 then some ⟨.Pawn, .White⟩
  else if r.val = 6 then some ⟨.Pawn, .Black⟩
  else if r.val = 7 then some ⟨backRankType c.val, .Black⟩
  else none

/-- Mirror of the file-letter match in `pos_to_string`; `none` models the
source's panic branch for a column outside 0..7. -/
def fileOfCol (col : Int) : Option Char :=
  if col = 0 then some 'A'
  else if col = 1 then some 'B'
  else if col = 2 then some 'C'
  else if col = 3 then some 'D'
  else if col = 4 then some 'E'
  else if col = 5 then some 'F'
  else if col = 6 then some 'G'
  else if col = 7 then some 'H'
  else none

/-- Mirror of `pos_to_string`: file letter followed by the decimal rendering of
`row + 1`; `none` models the panic on an invalid column. -/
def pos_to_string (pos : Position) : Option (List Char) :=
  match fileOfCol pos.col with
  | none => none
  | some file => some (file :: (toString (pos.row + 1)).toList)

/-- Model of Rust `char::to_digit(10)`. -/
def toDigit10 (c : Char) : Option Nat :=
  if '0' ≤ c ∧ c ≤ '9' then some (c.toNat - 48) else none

/-- Mirror of the file-letter match in `pos_from_string`. -/
def colOfFile (file : Char) : Option Int :=
  match file with
  | 'A' => some 0
  | 'B' => some 1
  | 'C' => some 2
  | 'D' => some 3
  | 'E' => some 4
  | 'F' => some 5
  | 'G' => some 6
  | 'H' => some 7
  | _ => none

/-- Mirror of `pos_from_string`: first char is the file, second the rank digit;
the row is the digit minus one (computed before the file is checked, as in the
source). -/
def pos_from_string (s : List Char) : Except String Position :=
  match s.get? 0 with
  | none => .error "Invalid position string"
  | some file =>
    match s.get? 1 with
    | none => .error "Invalid position string"
    | some rank =>
      match toDigit10 rank with
      | none => .error "Invalid rank"
      | some d =>
        let row : Int := (d : Int) - 1
        match colOfFile file with
        | none => .error "Invalid file"
        | some col => .ok (Position.new row col)

/-- Mirror of `piece_type_to_char`. -/
def piece_type_to_char : PieceType → Char
  | .Pawn => 'P'
  | .Knight => 'N'
  | .Bishop => 'B'
  | .Rook => 'R'
  | .Queen => 'Q'
  | .King => 'K'

/-- Mirror of `char_to_piece_type`. -/
def char_to_piece_type (c : Char) : Except String PieceType :=
  match c with
  | 'P' => .ok .Pawn
  | 'N' => .ok .Knight
  | 'B' => .ok .Bishop
  | 'R' => .ok .Rook
  | 'Q' => .ok .Queen
  | 'K' => .ok .King
  | _ => .error "Invalid piece type"

/-- Mirror of `move_to_string`: origin square, destination square, promotion
char (piece letter, or the char 0 for none). -/
def move_to_string (fromP toP : Position) (promotion_piece : Option PieceType) :
    Option (List Char) :=
  match pos_to_string fromP, pos_to_string toP with
  | some fs, some ts =>
    let ps : List Char :=
      match promotion_piece with
      | some pt => [piece_type_to_char pt]
      | none => ['0']
    some (fs ++ ts ++ ps)
  | _, _ => none

/-- Mirror of `move_from_string`: a 5-char token; the source's
`chars().nth(4).unwrap()` is in bounds here because the length check passed
(the byte-level model covers the non-ASCII panics). -/
def move_from_string (s : List Char) :
    Except String (Position × Position × Option PieceType) :=
  if h : s.length = 5 then
    match pos_from_string (s.take 2) with
    | .error e => .error e
    | .ok fromP =>
      match pos_from_string ((s.drop 2).take 2) with
      | .error e => .error e
      | .ok toP =>
        let promotion_char := s.get ⟨4, by omega⟩
        let promotion_piece :=
          if promotion_char ≠ '0' then (char_to_piece_type promotion_char).toOption
          else none
        .ok (fromP, toP, promotion_piece)
  else .error "Invalid move string"

/-- Mirror of `game_result_to_string`. -/
def game_result_to_string (result : Option GameResult) : List Char :=
  match result with
  | some (.Checkmate .White) => "1-0".toList
  | some (.Checkmate .Black) => "0-1".toList
  | some .Stalemate => "1-1".toList
  | none => "0-0".toList

/-- Mirror of `game_result_from_string`. -/
def game_result_from_string (s : List Char) : Except String (Option GameResult) :=
  if s = "1-0".toList then .ok (some (.Checkmate .White))
  else if s = "0-1".toList then .ok (some (.Checkmate .Black))
  else if s = "1-1".toList then .ok (some .Stalemate)
  else if s = "0-0".toList then .ok none
  else .error "Invalid game result"

/-- FEN letter of a piece: uppercase for white, lowercase for black, as in
`board_to_fen`. -/
def pieceFenChar (p : Piece) : Char :=
  match p.color with
  | .White => (piece_type_to_char p.piece_type).toUpper
  | .Black => (piece_type_to_char p.piece_type).toLower

/-- The inner column loop of `board_to_fen`, with `empty_count` as the
accumulator: an empty square bumps the count, an occupied square first flushes
a nonzero count as its decimal rendering, a trailing nonzero count is flushed
at the end of the rank. -/
def fenRank : List (Option Piece) → Nat → List Char
  | [], cnt => if cnt = 0 then [] else (Nat.repr cnt).toList
  | none :: rest, cnt => fenRank rest (cnt + 1)
  | some p :: rest, cnt =>
    (if cnt = 0 then [] else (Nat.repr cnt).toList) ++ pieceFenChar p :: fenRank rest 0

/-- Mirror of `board_to_fen`: rows 0..7 of the loop read board row `7 - row`,
each rank is the run-length emission of its 8 columns, and a slash follows
every rank but the last (which is exactly `intercalate`). -/
def board_to_fen (b : Board) : List Char :=
  List.intercalate ['/'] ((List.range 8).map fun row =>
    fenRank ((List.range 8).map fun col =>
      b.get (Position.new (7 - Int.ofNat row) (Int.ofNat col))) 0)

/-- Mirror of `add_padding`: right-pad with the char 0 to 128.  The source
computes `128 - len` in `usize` and is only reached with `len ≤ 128` by its
callers' validity assumptions (an oversize payload would panic, spec section 9);
truncated subtraction is faithful on that domain. -/
def add_padding (s : List Char) : List Char :=
  s ++ List.replicate (128 - s.length) '0'

/-- Mirror of the `MoveMessage` struct (board snapshot included). -/
structure MoveMessage where
  from_ : Position
  to_ : Position
  promotion_piece : Option PieceType
  result : Option GameResult
  new_board : Board

/-- Mirror of `MoveMessage::to_string`; `none` models the panic on an invalid
column inside `pos_to_string`. -/
def MoveMessage.to_string (m : MoveMessage) : Option (List Char) :=
  match move_to_string m.from_ m.to_ m.promotion_piece with
  | none => none
  | some mv =>
    some (add_padding ("ChessMOVE:".toList ++ mv ++ ':' ::
      (game_result_to_string m.result ++ ':' :: (board_to_fen m.new_board ++ [':']))))

/-- Modelled from the spec: one rank of the rules engine's FEN-setup parse; a
digit expands to that many empty squares, a piece letter to one occupied
square, anything else fails. -/
def rankFromFen : List Char → Option (List (Option Piece))
  | [] => some []
  | c :: rest =>
    if c.isDigit then
      (rankFromFen rest).map fun cells => List.replicate (c.toNat - 48) none ++ cells
    else
      match
        (match c with
        | 'P' => some (Piece.mk .Pawn .White)
        | 'N' => some (Piece.mk .Knight .White)
        | 'B' => some (Piece.mk .Bishop .White)
        | 'R' => some (Piece.mk .Rook .White)
        | 'Q' => some (Piece.mk .Queen .White)
        | 'K' => some (Piece.mk .King .White)
        | 'p' => some (Piece.mk .Pawn .Black)
        | 'n' => some (Piece.mk .Knight .Black)
        | 'b' => some (Piece.mk .Bishop .Black)
        | 'r' => some (Piece.mk .Rook .Black)
        | 'q' => some (Piece.mk .Queen .Black)
        | 'k' => some (Piece.mk .King .Black)
        | _ => none)
      with
      | some p => (rankFromFen rest).map fun cells => some p :: cells
      | none => none

/-- Modelled from the spec: the rules engine's FEN-style board-setup entry
point reconstructs a board from the emitted string (first rank listed is board
row 7, down to row 0); the source ignores its outcome, so on a string it
cannot parse the board is left as it was. -/
def Board.setup_fen (b : Board) (s : List Char) : Board :=
  match (s.splitOn '/').mapM rankFromFen with
  | none => b
  | some ranks =>
    if ranks.length = 8 ∧ ranks.all (fun rk => rk.length = 8) then
      fun r c => (ranks.getD (7 - r.val) []).getD c.val none
    else b

/-- Mirror of `MoveMessage::from_string`: length check, split on colon into
exactly 5 parts, move and result token parses (their error strings replaced by
the let-else messages), then the FEN setup whose outcome is ignored. -/
def MoveMessage.from_string (s : List Char) : Except String MoveMessage :=
  if s.length ≠ 128 then .error "Message must be 128 characters"
  else
    let parts := s.splitOn ':'
    if parts.length ≠ 5 then .error "Invalid message format"
    else
      match move_from_string (parts.getD 1 []) with
      | .error _ => .error "Invalid move format"
      | .ok (fromP, toP, promotion_piece) =>
        match game_result_from_string (parts.getD 2 []) with
        | .error _ => .error "Invalid result format"
        | .ok result =>
          let board := Board.setup_fen Board.start_pos (parts.getD 3 [])
          .ok ⟨fromP, toP, promotion_piece, result, board⟩

/-- Mirror of the `QuitMessage` struct. -/
structure QuitMessage where
  message : Option (List Char)
deriving DecidableEq

/-- Mirror of `QuitMessage::to_string`. -/
def QuitMessage.to_string (q : QuitMessage) : List Char :=
  let msg : List Char :=
    match q.message with
    | some m => m
    | none => []
  add_padding ("ChessQUIT:".toList ++ msg ++ [':'])

/-- Mirror of `QuitMessage::from_string`: after the length check, the reason is
the middle part when the split has exactly 3 parts, otherwise absent. -/
def QuitMessage.from_string (s : List Char) : Except String QuitMessage :=
  if s.length ≠ 128 then .error "Message must be 128 characters"
  else
    let parts := s.splitOn ':'
    if parts.length = 3 then .ok ⟨some (parts.getD 1 [])⟩ else .ok ⟨none⟩

/-- Mirror of the `Message` enum. -/
inductive Message where
  | move (m : MoveMessage)
  | quit (q : QuitMessage)

/-- Mirror of `Message::to_string`. -/
def Message.to_string : Message → Option (List Char)
  | .move m => m.to_string
  | .quit q => some q.to_string

/-- Mirror of `Message::from_string`: length check, identifier dispatch on the
first 9 chars (the source's byte slice `0..9`, exact for ASCII input; the
byte-level model covers the non-ASCII boundary panic). -/
def Message.from_string (s : List Char) : Except String Message :=
  if s.length ≠ 128 then .error "Message must be 128 characters"
  else
    let identifier := s.take 9
    if identifier = "ChessMOVE".toList then (MoveMessage.from_string s).map Message.move
    else if identifier = "ChessQUIT".toList then (QuitMessage.from_string s).map Message.quit
    else .error "Invalid message identifier"

/-!
Byte-level model.  Rust strings are UTF-8 byte sequences; `str::len` counts
bytes and slicing `&s[i..j]` panics when `i` or `j` is not a char boundary.
The definitions below refine the decoder to that byte semantics; an outcome of
`none` models a panic of the source.
-/

/-- Is a UTF-8 continuation byte (0x80..0xBF). -/
def isCont (b : Nat) : Bool := 128 ≤ b && b < 192

/-- Model of Rust `str::is_char_boundary` on the bytes of a string: index 0 and
the total length are boundaries, an interior index is one exactly when the byte
there is not a continuation byte, and an index past the end is not one. -/
def isBoundary (bs : List Nat) (i : Nat) : Bool :=
  if i = 0 then true
  else if i = bs.length then true
  else if i < bs.length then !isCont (bs.getD i 0)
  else false

/-- Bytes of an ASCII string literal. -/
def strBytes (s : String) : List Nat := s.toList.map Char.toNat

/-- UTF-8 decoding of a byte list, exact on valid UTF-8 input.  On invalid
input it substitutes the replacement character, approximating
`String::from_utf8_lossy` (no theorem below depends on the replacement
granularity for invalid input). -/
def utf8CharsAux : Nat → List Nat → List Char
  | 0, _ => []
  | _ + 1, [] => []
  | fuel + 1, b :: rest =>
    if b < 128 then Char.ofNat b :: utf8CharsAux fuel rest
    else if 194 ≤ b ∧ b ≤ 223 then
      match rest with
      | [] => [(Char.ofNat 65533)]
      | b1 :: rest1 =>
        if isCont b1 then Char.ofNat ((b % 32) * 64 + b1 % 64) :: utf8CharsAux fuel rest1
        else Char.ofNat 65533 :: utf8CharsAux fuel rest
    else if 224 ≤ b ∧ b ≤ 239 then
      match rest with
      | b1 :: b2 :: rest2 =>
        if isCont b1 && isCont b2 then
          let n := (b % 16) * 4096 + (b1 % 64) * 64 + b2 % 64
          if 2048 ≤ n ∧ (n < 55296 ∨ 57343 < n) then Char.ofNat n :: utf8CharsAux fuel rest2
          else Char.ofNat 65533 :: utf8CharsAux fuel rest
        else Char.ofNat 65533 :: utf8CharsAux fuel rest
      | _ => [(Char.ofNat 65533)]
    else if 240 ≤ b ∧ b ≤ 244 then
      match rest with
      | b1 :: b2 :: b3 :: rest3 =>
        if isCont b1 && isCont b2 && isCont b3 then
          let n := (b % 8) * 262144 + (b1 % 64) * 4096 + (b2 % 64) * 64 + b3 % 64
          if 65536 ≤ n ∧ n ≤ 1114111 then Char.ofNat n :: utf8CharsAux fuel rest3
          else Char.ofNat 65533 :: utf8CharsAux fuel rest
        else Char.ofNat 65533 :: utf8CharsAux fuel rest
      | _ => [(Char.ofNat 65533)]
    else Char.ofNat 65533 :: utf8CharsAux fuel rest

/-- UTF-8 decoding of a byte list (the fuel, one unit per byte consumed, is
always sufficient since every step consumes at least one byte). -/
def utf8Chars (bs : List Nat) : List Char := utf8CharsAux bs.length bs

/-- UTF-8 encoding of one char. -/
def utf8EncodeChar (c : Char) : List Nat :=
  let n := c.toNat
  if n < 128 then [n]
  else if n < 2048 then [192 + n / 64, 128 + n % 64]
  else if n < 65536 then [224 + n / 4096, 128 + (n / 64) % 64, 128 + n % 64]
  else [240 + n / 262144, 128 + (n / 4096) % 64, 128 + (n / 64) % 64, 128 + n % 64]

/-- UTF-8 encoding of a char list (bytes of the corresponding Rust String). -/
def utf8Encode (cs : List Char) : List Nat :=
  (cs.map utf8EncodeChar).flatten

/-- Byte-level mirror of `move_from_string`: the length check counts bytes, the
slices `0..2` and `2..4` panic off a char boundary (`none`), the squares are
parsed from the decoded chars of the 2-byte slices, and `chars().nth(4)` is
unwrapped (`none` when fewer than 5 chars decode from the 5 bytes). -/
def move_from_string_bytes (ms : List Nat) :
    Option (Except String (Position × Position × Option PieceType)) :=
  if ms.length ≠ 5 then some (.error "Invalid move string")
  else if !(isBoundary ms 2) then none
  else
    match pos_from_string (utf8Chars (ms.take 2)) with
    | .error e => some (.error e)
    | .ok fromP =>
      if !(isBoundary ms 4) then none
      else
        match pos_from_string (utf8Chars ((ms.drop 2).take 2)) with
        | .error e => some (.error e)
        | .ok toP =>
          match (utf8Chars ms).get? 4 with
          | none => none
          | some promotion_char =>
            some (.ok (fromP, toP,
              if promotion_char ≠ '0' then (char_to_piece_type promotion_char).toOption
              else none))

/-- Byte-level mirror of `MoveMessage::from_string`.  Splitting the bytes on 58
is exactly Rust's `split(':')` on valid UTF-8 (58 never occurs inside a
multi-byte sequence); a panic inside the move parse propagates as `none`. -/
def MoveMessage.from_string_bytes (msg : List Nat) : Option (Except String MoveMessage) :=
  if msg.length ≠ 128 then some (.error "Message must be 128 characters")
  else
    let parts := msg.splitOn 58
    if parts.length ≠ 5 then some (.error "Invalid message format")
    else
      match move_from_string_bytes (parts.getD 1 []) with
      | none => none
      | some (.error _) => some (.error "Invalid move format")
      | some (.ok (fromP, toP, promotion_piece)) =>
        match game_result_from_string (utf8Chars (parts.getD 2 [])) with
        | .error _ => some (.error "Invalid result format")
        | .ok result =>
          some (.ok ⟨fromP, toP, promotion_piece, result,
            Board.setup_fen Board.start_pos (utf8Chars (parts.getD 3 []))⟩)

/-- Byte-level mirror of `QuitMessage::from_string`. -/
def QuitMessage.from_string_bytes (msg : List Nat) : Option (Except String QuitMessage) :=
  if msg.length ≠ 128 then some (.error "Message must be 128 characters")
  else
    let parts := msg.splitOn 58
    if parts.length = 3 then some (.ok ⟨some (utf8Chars (parts.getD 1 []))⟩)
    else some (.ok ⟨none⟩)

/-- Byte-level mirror of `Message::from_string`: the length check counts bytes
and the identifier slice `&msg_str[0..9]` panics (`none`) when byte 9 is not a
char boundary, which can happen for a valid 128-byte UTF-8 string. -/
def Message.from_string_bytes (msg : List Nat) : Option (Except String Message) :=
  if msg.length ≠ 128 then some (.error "Message must be 128 characters")
  else if !(isBoundary msg 9) then none
  else
    let identifier := msg.take 9
    if identifier = strBytes "ChessMOVE" then
      (MoveMessage.from_string_bytes msg).map (Except.map Message.move)
    else if identifier = strBytes "ChessQUIT" then
      (QuitMessage.from_string_bytes msg).map (Except.map Message.quit)
    else some (.error "Invalid message identifier")

/-- Mirror of the `TcpError` enum; the `Io` payload is irrelevant here. -/
inductive TcpError where
  | WouldBlock
  | InvalidMessage (s : String)
  | Io
deriving DecidableEq

/-- Model of std's documented `Read::read_exact` on a non-blocking socket, over
the explicit state of the bytes currently readable: it loops reading into the
caller's 128-byte buffer, so with at least 128 bytes available the frame is
consumed and returned; with fewer, everything available is consumed into the
local buffer and then the would-block error surfaces, the partially filled
buffer being discarded. -/
def read_exact_128 (avail : List Nat) : Option (List Nat) × List Nat :=
  if 128 ≤ avail.length then (some (avail.take 128), avail.drop 128)
  else (none, [])

/-- Mirror of `TcpConnection::read` over the socket-byte-queue state:
`read_exact` into a 128-byte buffer, lossy UTF-8 conversion, then
`Message::from_string`; a `none` result models a decode panic reaching the
caller. -/
def TcpConnection.read (avail : List Nat) :
    Option (Except TcpError Message) × List Nat :=
  match read_exact_128 avail with
  | (none, rest) => (some (.error .WouldBlock), rest)
  | (some buf, rest) =>
    match Message.from_string_bytes (utf8Encode (utf8Chars buf)) with
    | none => (none, rest)
    | some (.ok m) => (some (.ok m), rest)
    | some (.error e) => (some (.error (.InvalidMessage e)), rest)

/-- Boolean success of an `Except` (Rust `Result::is_ok`). -/
def exceptIsOk {ε α : Type _} : Except ε α → Bool
  | .ok _ => true
  | .error _ => false

deriving instance DecidableEq for Except

/-- Spec wording (FEN emission): the piece letter of an occupied square,
uppercase for a White piece and lowercase for a Black piece. -/
def specPieceLetter : Piece → Char
  | ⟨.Pawn, .White⟩ => 'P'
  | ⟨.Knight, .White⟩ => 'N'
  | ⟨.Bishop, .White⟩ => 'B'
  | ⟨.Rook, .White⟩ => 'R'
  | ⟨.Queen, .White⟩ => 'Q'
  | ⟨.King, .White⟩ => 'K'
  | ⟨.Pawn, .Black⟩ => 'p'
  | ⟨.Knight, .Black⟩ => 'n'
  | ⟨.Bishop, .Black⟩ => 'b'
  | ⟨.Rook, .Black⟩ => 'r'
  | ⟨.Queen, .Black⟩ => 'q'
  | ⟨.King, .Black⟩ => 'k'

/-- Spec wording (claim C8): a rank string replaces every maximal run of
consecutive empty squares by its length as a single digit and every occupied
square by its piece letter, scanning the given cells left to right. -/
def specRank : List (Option Piece) → List Char
  | [] => []
  | none :: rest =>
    Char.ofNat (48 + (1 + (rest.takeWhile (fun o => o.isNone)).length)) ::
      specRank (rest.dropWhile (fun o => o.isNone))
  | some p :: rest => specPieceLetter p :: specRank rest
termination_by cells => cells.length
decreasing_by
  all_goals simp only [List.length_cons]
  · have := (List.dropWhile_sublist (l := rest) (p := fun o => o.isNone)).length_le
    omega
  · omega

/-- Spec wording (claim C8): the ranks from row index 7 down to row index 0
separated by a slash, each rank scanning columns 0 through 7. -/
def fenSpec (b : Board) : List Char :=
  List.intercalate ['/'] (((List.range 8).reverse).map fun row =>
    specRank ((List.range 8).map fun col => b.get (Position.new (Int.ofNat row) (Int.ofNat col))))

/-- A 128-char Move frame whose move token has rank digit 0 (outside 1..8) and
promotion char X (not a piece letter and not the char 0). -/
def c3Frame : List Char :=
  "ChessMOVE:A0A1X:0-0:8/8/8/8/8/8/8/8:".toList ++ List.replicate 92 '0'

/-- A 128-char frame with a lowercase file letter in the origin square token. -/
def c3LowercaseFrame : List Char :=
  "ChessMOVE:a1A1Q:0-0:8/8/8/8/8/8/8/8:".toList ++ List.replicate 92 '0'

/-- A 128-char Move frame with well-formed move and result tokens and a
nonsense FEN segment. -/
def c10Frame : List Char :=
  "ChessMOVE:E2E4Q:1-0:this_is_not_a_fen:".toList ++ List.replicate 90 '0'

/-- A 128-byte Move frame whose move token is the euro sign (bytes
226 130 172, one 3-byte char) followed by the two chars A1: byte 2 of the
token falls inside the euro sign, so the source's slice of the origin square
token panics. -/
def c5Frame : List Nat :=
  strBytes "ChessMOVE:" ++ [226, 130, 172] ++ strBytes "A1:0-0:8/8/8/8/8/8/8/8:" ++
    List.replicate 92 48

/-- A 128-byte frame whose bytes 8..10 are the euro sign: its first 9 bytes
are neither identifier literal, and byte 9 is not a char boundary, so the
source's identifier slice panics. -/
def c9Frame : List Nat := strBytes "ChessMOV" ++ [226, 130, 172] ++ List.replicate 117 48

/-- The 128-byte frame encoding the no-reason quit message. -/
def quitFrameBytes : List Nat := strBytes "ChessQUIT::" ++ List.replicate 117 48

/-- The scenario message: pawn e2 (row 1, col 4) to e4 (row 3, col 4) on the
starting board, no promotion, no result. -/
def e2e4Msg : MoveMessage :=
  ⟨Position.new 1 4, Position.new 3 4, none, none, Board.start_pos⟩

/-! Helper lemmas. -/

theorem intercalate_singleton (sep : List Char) (a : List Char) :
    List.intercalate sep [a] = a := by
  simp [List.intercalate]

theorem intercalate_cons_cons (sep : List Char) (a b : List Char) (t : List (List Char)) :
    List.intercalate sep (a :: b :: t) = a ++ sep ++ List.intercalate sep (b :: t) := by
  simp [List.intercalate, List.intersperse]

theorem intercalate_length_le (ch : Char) (k : Nat) :
    ∀ ls : List (List Char), (∀ l ∈ ls, l.length ≤ k) →
      (List.intercalate [ch] ls).length ≤ ls.length * (k + 1)
  | [] => by intro _; simp [List.intercalate]
  | [a] => by
    intro h
    rw [intercalate_singleton]
    have := h a (by simp)
    simp
    omega
  | a :: b :: t => by
    intro h
    rw [intercalate_cons_cons]
    have hrec := intercalate_length_le ch k (b :: t) (fun l hl => h l (by simp [hl]))
    have ha := h a (by simp)
    have hmul : (a :: b :: t : List (List Char)).length * (k + 1)
        = (b :: t : List (List Char)).length * (k + 1) + (k + 1) := by
      have hl : (a :: b :: t : List (List Char)).length
          = (b :: t : List (List Char)).length + 1 := rfl
      rw [hl, Nat.succ_mul]
    rw [hmul]
    have hlen : (a ++ [ch] ++ List.intercalate [ch] (b :: t)).length
        = a.length + 1 + (List.intercalate [ch] (b :: t)).length := by simp; omega
    rw [hlen]
    omega

theorem mem_intercalate (ch c : Char) :
    ∀ ls : List (List Char), c ∈ List.intercalate [ch] ls → c = ch ∨ ∃ l ∈ ls, c ∈ l
  | [] => by intro h; simp [List.intercalate] at h
  | [a] => by
    intro h
    rw [intercalate_singleton] at h
    exact Or.inr ⟨a, by simp, h⟩
  | a :: b :: t => by
    intro h
    rw [intercalate_cons_cons] at h
    simp only [List.mem_append, List.mem_singleton] at h
    rcases h with (ha | hc) | hrest
    · exact Or.inr ⟨a, by simp, ha⟩
    · exact Or.inl hc
    · rcases mem_intercalate ch c (b :: t) hrest with h | ⟨l, hl, hcl⟩
      · exact Or.inl h
      · exact Or.inr ⟨l, by simp [List.mem_cons] at hl ⊢; tauto, hcl⟩

theorem repr_digit_toList {n : Nat} (h1 : 1 ≤ n) (h8 : n ≤ 8) :
    (Nat.repr n).toList = [Char.ofNat (48 + n)] := by
  interval_cases n <;> decide

theorem add_padding_length (s : List Char) (h : s.length ≤ 128) :
    (add_padding s).length = 128 := by
  simp [add_padding]
  omega

theorem pos_round_trip (p : Position) (h1 : 0 ≤ p.row) (h2 : p.row < 8)
    (h3 : 0 ≤ p.col) (h4 : p.col < 8) :
    ∃ s, pos_to_string p = some s ∧ s.length = 2 ∧ ':' ∉ s ∧
      pos_from_string s = .ok p := by
  obtain ⟨row, col⟩ := p
  simp only at h1 h2 h3 h4
  interval_cases row <;> interval_cases col <;>
    exact ⟨_, rfl, by decide, by decide, by decide⟩

theorem game_result_round_trip (r : Option GameResult) :
    game_result_from_string (game_result_to_string r) = .ok r ∧
    ':' ∉ game_result_to_string r ∧ (game_result_to_string r).length = 3 := by
  rcases r with _ | (c | _)
  · decide
  · rcases c <;> decide
  · decide

theorem promo_char_spec (pt : PieceType) :
    piece_type_to_char pt ≠ '0' ∧
    (char_to_piece_type (piece_type_to_char pt)).toOption = some pt ∧
    piece_type_to_char pt ≠ ':' := by
  cases pt <;> decide

theorem splitOn_five (idc mv res fen pad : List Char)
    (hid : ':' ∉ idc) (hmv : ':' ∉ mv) (hres : ':' ∉ res) (hfen : ':' ∉ fen)
    (hpad : ':' ∉ pad) :
    (idc ++ ':' :: (mv ++ ':' :: (res ++ ':' :: (fen ++ ':' :: pad)))).splitOn ':' =
      [idc, mv, res, fen, pad] := by
  have hb : ∀ (l : List Char), ':' ∉ l → ∀ x ∈ l, ¬((x == ':') = true) := by
    intro l hl x hx hbeq
    exact hl (by rwa [eq_of_beq hbeq] at hx)
  unfold List.splitOn
  rw [List.splitOnP_first _ _ (hb idc hid) ':' (by simp),
      List.splitOnP_first _ _ (hb mv hmv) ':' (by simp),
      List.splitOnP_first _ _ (hb res hres) ':' (by simp),
      List.splitOnP_first _ _ (hb fen hfen) ':' (by simp),
      List.splitOnP_eq_single _ _ (hb pad hpad)]

theorem pieceFenChar_eq_specPieceLetter (p : Piece) : pieceFenChar p = specPieceLetter p := by
  obtain ⟨t, c⟩ := p
  cases t <;> cases c <;> decide

theorem fenRank_mem_allowed : ∀ (cells : List (Option Piece)) (cnt : Nat) (c : Char),
    cnt + cells.length ≤ 8 → c ∈ fenRank cells cnt → c ∈ "12345678PNBRQKpnbrqk".toList
  | [], cnt, c => by
    intro h hc
    simp only [fenRank] at hc
    by_cases h0 : cnt = 0
    · simp [h0] at hc
    · rw [if_neg h0, repr_digit_toList (by omega) (by simpa using h)] at hc
      simp only [List.mem_singleton] at hc
      subst hc
      have hcnt1 : 1 ≤ cnt := by omega
      have hcnt8 : cnt ≤ 8 := by simpa using h
      interval_cases cnt <;> decide
  | none :: rest, cnt, c => by
    intro h hc
    simp only [fenRank] at hc
    exact fenRank_mem_allowed rest (cnt + 1) c (by simp at h ⊢; omega) hc
  | some p :: rest, cnt, c => by
    intro h hc
    simp only [fenRank, List.mem_append, List.mem_cons] at hc
    rcases hc with hflush | hc | hrest
    · by_cases h0 : cnt = 0
      · simp [h0] at hflush
      · rw [if_neg h0, repr_digit_toList (by omega) (by simp at h; omega)] at hflush
        simp only [List.mem_singleton] at hflush
        subst hflush
        have hcnt1 : 1 ≤ cnt := by omega
        have hcnt8 : cnt ≤ 8 := by simp at h; omega
        interval_cases cnt <;> decide
    · subst hc
      obtain ⟨t, col⟩ := p
      cases t <;> cases col <;> decide
    · exact fenRank_mem_allowed rest 0 c (by simp at h; omega) hrest

theorem fenRank_length_le : ∀ (cells : List (Option Piece)) (cnt : Nat),
    cnt + cells.length ≤ 8 →
    (fenRank cells cnt).length ≤ cells.length + (if cnt = 0 then 0 else 1)
  | [], cnt => by
    intro h
    simp only [fenRank]
    by_cases h0 : cnt = 0
    · simp [h0]
    · rw [if_neg h0, if_neg h0, repr_digit_toList (by omega) (by simpa using h)]
      simp
  | none :: rest, cnt => by
    intro h
    simp only [fenRank]
    have hrec := fenRank_length_le rest (cnt + 1) (by simp at h ⊢; omega)
    rw [if_neg (by omega : ¬(cnt + 1 = 0))] at hrec
    simp only [List.length_cons]
    split <;> omega
  | some p :: rest, cnt => by
    intro h
    simp only [fenRank]
    have hrec := fenRank_length_le rest 0 (by simp at h ⊢; omega)
    rw [if_pos rfl] at hrec
    by_cases h0 : cnt = 0
    · rw [if_pos h0, h0, if_pos rfl]
      simp at hrec ⊢
      omega
    · rw [if_neg h0, if_neg h0, repr_digit_toList (by omega) (by simp at h; omega)]
      simp at hrec ⊢
      omega

theorem rankFromFen_digit_char (c : Char) (hc : c.isDigit = true) (tail : List Char) :
    rankFromFen (c :: tail) =
      (rankFromFen tail).map fun cells => List.replicate (c.toNat - 48) none ++ cells := by
  simp [rankFromFen, hc]

theorem rankFromFen_digit (n : Nat) (h1 : 1 ≤ n) (h8 : n ≤ 8) (tail : List Char) :
    rankFromFen ((Nat.repr n).toList ++ tail) =
      (rankFromFen tail).map fun cells => List.replicate n none ++ cells := by
  rw [repr_digit_toList h1 h8, List.singleton_append,
      rankFromFen_digit_char _ (by interval_cases n <;> decide)]
  have hval : (Char.ofNat (48 + n)).toNat - 48 = n := by interval_cases n <;> decide
  rw [hval]

theorem rankFromFen_piece (p : Piece) (tail : List Char) :
    rankFromFen (pieceFenChar p :: tail) =
      (rankFromFen tail).map fun cells => some p :: cells := by
  rw [pieceFenChar_eq_specPieceLetter]
  obtain ⟨t, c⟩ := p
  cases t <;> cases c <;>
    (simp only [specPieceLetter, rankFromFen]; rw [if_neg (by decide)])

theorem rankFromFen_fenRank : ∀ (cells : List (Option Piece)) (cnt : Nat),
    cnt + cells.length ≤ 8 →
    rankFromFen (fenRank cells cnt) = some (List.replicate cnt none ++ cells)
  | [], cnt => by
    intro h
    simp only [fenRank]
    by_cases h0 : cnt = 0
    · simp [h0, rankFromFen]
    · rw [if_neg h0]
      have hrw : (Nat.repr cnt).toList = (Nat.repr cnt).toList ++ ([] : List Char) := by simp
      rw [hrw, rankFromFen_digit cnt (by omega) (by simpa using h)]
      simp [rankFromFen]
  | none :: rest, cnt => by
    intro h
    simp only [fenRank]
    rw [rankFromFen_fenRank rest (cnt + 1) (by simp at h ⊢; omega)]
    rw [List.replicate_succ', List.append_assoc, List.singleton_append]
  | some p :: rest, cnt => by
    intro h
    simp only [fenRank]
    by_cases h0 : cnt = 0
    · rw [if_pos h0, List.nil_append, rankFromFen_piece,
        rankFromFen_fenRank rest 0 (by simp at h ⊢; omega)]
      simp [h0]
    · rw [if_neg h0,
        rankFromFen_digit cnt (by omega) (by simp at h; omega) _,
        rankFromFen_piece,
        rankFromFen_fenRank rest 0 (by simp at h ⊢; omega)]
      simp

theorem mapM_map_eq_some {α β γ : Type _} (g : α → β) (f : β → Option γ) (h : α → γ) :
    ∀ l : List α, (∀ x ∈ l, f (g x) = some (h x)) →
      (l.map g).mapM f = some (l.map h)
  | [] => by intro _; rfl
  | x :: t => by
    intro hall
    rw [List.map_cons, List.mapM_cons, hall x (by simp),
      mapM_map_eq_some g f h t (fun y hy => hall y (by simp [hy]))]
    rfl

theorem getD_map_range {α : Type _} (f : Nat → α) (i n : Nat) (h : i < n) (d : α) :
    ((List.range n).map f).getD i d = f i := by
  rw [List.getD_eq_getElem?_getD, List.getElem?_eq_getElem (by simpa using h)]
  simp

theorem board_to_fen_length_le (b : Board) : (board_to_fen b).length ≤ 72 := by
  have hall : ∀ l ∈ (List.range 8).map (fun row =>
      fenRank ((List.range 8).map fun col =>
        b.get (Position.new (7 - Int.ofNat row) (Int.ofNat col))) 0), l.length ≤ 8 := by
    intro l hl
    simp only [List.mem_map] at hl
    obtain ⟨row, _, rfl⟩ := hl
    have hlen := fenRank_length_le ((List.range 8).map fun col =>
      b.get (Position.new (7 - Int.ofNat row) (Int.ofNat col))) 0 (by simp)
    simpa using hlen
  have hmain := intercalate_length_le '/' 8 _ hall
  simpa [board_to_fen] using hmain

theorem board_to_fen_no_colon (b : Board) : ':' ∉ board_to_fen b := by
  intro hmem
  rcases mem_intercalate '/' ':' _ (by simpa [board_to_fen] using hmem) with h | ⟨l, hl, hcl⟩
  · exact absurd h (by decide)
  · simp only [List.mem_map] at hl
    obtain ⟨row, _, rfl⟩ := hl
    have hx := fenRank_mem_allowed _ 0 ':' (by simp) hcl
    exact absurd hx (by decide)

theorem Board.get_coe (b : Board) (r c : Fin 8) :
    Board.get b (Position.new ((r.val : Int)) ((c.val : Int))) = b r c := by
  have hrlt := r.isLt
  have hclt := c.isLt
  have hcond : 0 ≤ (Position.new ((r.val : Int)) ((c.val : Int))).row ∧
      (Position.new ((r.val : Int)) ((c.val : Int))).row < 8 ∧
      0 ≤ (Position.new ((r.val : Int)) ((c.val : Int))).col ∧
      (Position.new ((r.val : Int)) ((c.val : Int))).col < 8 := by
    refine ⟨?_, ?_, ?_, ?_⟩ <;> (simp [Position.new]; try omega)
  unfold Board.get
  rw [dif_pos hcond]
  have key : ∀ (x y : Fin 8), x = r → y = c → b x y = b r c := by
    intro x y hx hy
    rw [hx, hy]
  apply key <;> apply Fin.ext <;> simp [Position.new]

theorem setup_fen_board_to_fen (b0 b : Board) (r c : Fin 8) :
    Board.setup_fen b0 (board_to_fen b) r c = b r c := by
  have hsplit : (board_to_fen b).splitOn '/' = (List.range 8).map (fun row =>
      fenRank ((List.range 8).map fun col =>
        b.get (Position.new (7 - Int.ofNat row) (Int.ofNat col))) 0) := by
    unfold board_to_fen
    refine List.splitOn_intercalate _ '/' ?_ (by simp)
    intro l hl
    simp only [List.mem_map] at hl
    obtain ⟨row, _, rfl⟩ := hl
    intro hmem
    have hx := fenRank_mem_allowed _ 0 '/' (by simp) hmem
    exact absurd hx (by decide)
  have hmapM : ((List.range 8).map (fun row =>
      fenRank ((List.range 8).map fun col =>
        b.get (Position.new (7 - Int.ofNat row) (Int.ofNat col))) 0)).mapM rankFromFen
      = some ((List.range 8).map (fun row =>
        (List.range 8).map fun col =>
          b.get (Position.new (7 - Int.ofNat row) (Int.ofNat col)))) := by
    refine mapM_map_eq_some _ _ _ _ ?_
    intro row _
    have hrt := rankFromFen_fenRank ((List.range 8).map fun col =>
      b.get (Position.new (7 - Int.ofNat row) (Int.ofNat col))) 0 (by simp)
    simpa using hrt
  unfold Board.setup_fen
  rw [hsplit, hmapM]
  dsimp only
  rw [if_pos (by constructor <;> simp [List.all_eq_true])]
  have hrlt := r.isLt
  have hclt := c.isLt
  rw [getD_map_range _ _ _ (by omega : 7 - r.val < 8),
    getD_map_range _ _ _ hclt]
  simp only [Int.ofNat_eq_coe]
  have hcast : (7 : Int) - ((7 - r.val : Nat) : Int) = (r.val : Int) := by omega
  rw [hcast]
  have hgc := Board.get_coe b r c
  simpa using hgc

theorem move_to_string_parts (m : MoveMessage)
    (hfr : 0 ≤ m.from_.row) (hfr8 : m.from_.row < 8)
    (hfc : 0 ≤ m.from_.col) (hfc8 : m.from_.col < 8)
    (htr : 0 ≤ m.to_.row) (htr8 : m.to_.row < 8)
    (htc : 0 ≤ m.to_.col) (htc8 : m.to_.col < 8) :
    ∃ mv, move_to_string m.from_ m.to_ m.promotion_piece = some mv ∧
      mv.length = 5 ∧ ':' ∉ mv ∧
      move_from_string mv = .ok (m.from_, m.to_, m.promotion_piece) := by
  obtain ⟨fs, hfs, hfslen, hfscol, hfsok⟩ := pos_round_trip m.from_ hfr hfr8 hfc hfc8
  obtain ⟨ts, hts, htslen, htscol, htsok⟩ := pos_round_trip m.to_ htr htr8 htc htc8
  obtain ⟨a, b, rfl⟩ := List.length_eq_two.mp hfslen
  obtain ⟨x, y, rfl⟩ := List.length_eq_two.mp htslen
  rcases hpp : m.promotion_piece with _ | pt
  · refine ⟨[a, b, x, y, '0'], ?_, by simp, ?_, ?_⟩
    · unfold move_to_string
      rw [hfs, hts]
      rfl
    · simp only [List.mem_cons, List.not_mem_nil, or_false, not_or] at hfscol htscol ⊢
      exact ⟨hfscol.1, hfscol.2, htscol.1, htscol.2, by decide⟩
    · unfold move_from_string
      rw [dif_pos (by simp)]
      have ht2 : ([a, b, x, y, '0'].take 2) = [a, b] := rfl
      have hd2 : (([a, b, x, y, '0'].drop 2).take 2) = [x, y] := rfl
      rw [ht2, hfsok, hd2, htsok]
      simp only [Except.ok.injEq, Prod.mk.injEq, true_and, and_true]
      rw [if_neg (by intro hne; exact absurd rfl hne)]
  · obtain ⟨hpc0, hpcok, hpccol⟩ := promo_char_spec pt
    refine ⟨[a, b, x, y, piece_type_to_char pt], ?_, by simp, ?_, ?_⟩
    · unfold move_to_string
      rw [hfs, hts]
      rfl
    · simp only [List.mem_cons, List.not_mem_nil, or_false, not_or] at hfscol htscol ⊢
      exact ⟨hfscol.1, hfscol.2, htscol.1, htscol.2, fun h => hpccol h.symm⟩
    · unfold move_from_string
      rw [dif_pos (by simp)]
      have ht2 : ([a, b, x, y, piece_type_to_char pt].take 2) = [a, b] := rfl
      have hd2 : (([a, b, x, y, piece_type_to_char pt].drop 2).take 2) = [x, y] := rfl
      rw [ht2, hfsok, hd2, htsok]
      simp only [Except.ok.injEq, Prod.mk.injEq, true_and, and_true]
      show (if piece_type_to_char pt ≠ '0' then
          (char_to_piece_type (piece_type_to_char pt)).toOption else none) = some pt
      rw [if_pos hpc0]
      exact hpcok

theorem move_from_string_frame (mv res fen pad : List Char)
    (hmvcol : ':' ∉ mv) (hrescol : ':' ∉ res) (hfencol : ':' ∉ fen) (hpadcol : ':' ∉ pad)
    (hlen : ("ChessMOVE".toList ++ ':' ::
      (mv ++ ':' :: (res ++ ':' :: (fen ++ ':' :: pad)))).length = 128)
    (fromP toP : Position) (promo : Option PieceType) (result : Option GameResult)
    (hmvok : move_from_string mv = .ok (fromP, toP, promo))
    (hresok : game_result_from_string res = .ok result) :
    MoveMessage.from_string
      ("ChessMOVE".toList ++ ':' :: (mv ++ ':' :: (res ++ ':' :: (fen ++ ':' :: pad)))) =
      .ok ⟨fromP, toP, promo, result, Board.setup_fen Board.start_pos fen⟩ := by
  unfold MoveMessage.from_string
  rw [if_neg (by intro hne; exact hne hlen)]
  dsimp only
  rw [splitOn_five _ _ _ _ _ (by decide) hmvcol hrescol hfencol hpadcol]
  rw [if_neg (by simp)]
  simp only [List.getD_cons_succ, List.getD_cons_zero]
  rw [hmvok, hresok]

theorem message_from_string_move (s : List Char) (h128 : s.length = 128)
    (hid : s.take 9 = "ChessMOVE".toList) :
    Message.from_string s = (MoveMessage.from_string s).map Message.move := by
  unfold Message.from_string
  rw [if_neg (by intro hne; exact hne h128)]
  dsimp only
  rw [if_pos hid]

theorem move_encode_decode (m : MoveMessage)
    (hfr : 0 ≤ m.from_.row) (hfr8 : m.from_.row < 8)
    (hfc : 0 ≤ m.from_.col) (hfc8 : m.from_.col < 8)
    (htr : 0 ≤ m.to_.row) (htr8 : m.to_.row < 8)
    (htc : 0 ≤ m.to_.col) (htc8 : m.to_.col < 8) :
    ∃ enc, m.to_string = some enc ∧ enc.length = 128 ∧
      ∃ m2, Message.from_string enc = .ok (.move m2) ∧
        m2.from_ = m.from_ ∧ m2.to_ = m.to_ ∧
        m2.promotion_piece = m.promotion_piece ∧ m2.result = m.result ∧
        ∀ r c : Fin 8, m2.new_board r c = m.new_board r c := by
  obtain ⟨mv, hmv, hmvlen, hmvcol, hmvok⟩ :=
    move_to_string_parts m hfr hfr8 hfc hfc8 htr htr8 htc htc8
  obtain ⟨hresok, hrescol, hreslen⟩ := game_result_round_trip m.result
  have hfenlen := board_to_fen_length_le m.new_board
  have hfencol := board_to_fen_no_colon m.new_board
  have hidlen : ("ChessMOVE:".toList : List Char).length = 10 := rfl
  have hXlen : ("ChessMOVE:".toList ++ mv ++ ':' :: (game_result_to_string m.result ++
      ':' :: (board_to_fen m.new_board ++ [':']))).length
      = 21 + (board_to_fen m.new_board).length := by
    simp [hmvlen, hreslen]
    omega
  have hXle : ("ChessMOVE:".toList ++ mv ++ ':' :: (game_result_to_string m.result ++
      ':' :: (board_to_fen m.new_board ++ [':']))).length ≤ 128 := by omega
  have henc : m.to_string = some (add_padding ("ChessMOVE:".toList ++ mv ++
      ':' :: (game_result_to_string m.result ++
      ':' :: (board_to_fen m.new_board ++ [':'])))) := by
    unfold MoveMessage.to_string
    rw [hmv]
  have henclen := add_padding_length _ hXle
  have hpadcol : ':' ∉ (List.replicate
      (128 - ("ChessMOVE:".toList ++ mv ++ ':' :: (game_result_to_string m.result ++
        ':' :: (board_to_fen m.new_board ++ [':']))).length) '0' : List Char) := by
    intro hmem
    have hx := List.eq_of_mem_replicate hmem
    simp at hx
  have hid : ("ChessMOVE:".toList : List Char) = "ChessMOVE".toList ++ [':'] := rfl
  have hshape : add_padding ("ChessMOVE:".toList ++ mv ++
      ':' :: (game_result_to_string m.result ++
      ':' :: (board_to_fen m.new_board ++ [':']))) =
      "ChessMOVE".toList ++ ':' :: (mv ++ ':' :: (game_result_to_string m.result ++
      ':' :: (board_to_fen m.new_board ++ ':' :: List.replicate
      (128 - ("ChessMOVE:".toList ++ mv ++ ':' :: (game_result_to_string m.result ++
        ':' :: (board_to_fen m.new_board ++ [':']))).length) '0'))) := by
    unfold add_padding
    rw [hid]
    simp [List.append_assoc]
  refine ⟨_, henc, henclen, ?_⟩
  rw [hshape] at henclen ⊢
  rw [message_from_string_move _ henclen (by rw [List.take_left' (by rfl)]),
    move_from_string_frame _ _ _ _ hmvcol hrescol hfencol hpadcol henclen
      m.from_ m.to_ m.promotion_piece m.result hmvok hresok]
  refine ⟨_, rfl, rfl, rfl, rfl, rfl, ?_⟩
  intro r c
  exact setup_fen_board_to_fen Board.start_pos m.new_board r c

theorem pos_from_string_lowercase (c : Char) (t : List Char)
    (hlow : c ∈ "abcdefgh".toList) :
    ∃ e, pos_from_string (c :: t) = .error e := by
  have hcol : colOfFile c = none := by fin_cases hlow <;> rfl
  rcases ht : t[0]? with _ | rank
  · exact ⟨"Invalid position string",
      by simp [pos_from_string, List.get?_cons_succ, List.get?_eq_getElem?, ht]⟩
  · rcases hd : toDigit10 rank with _ | d
    · exact ⟨"Invalid rank",
        by simp [pos_from_string, List.get?_cons_succ, List.get?_eq_getElem?, ht, hd]⟩
    · exact ⟨"Invalid file",
        by simp [pos_from_string, List.get?_cons_succ, List.get?_eq_getElem?, ht, hd, hcol]⟩

theorem move_from_string_lowercase (s : List Char) (c : Char)
    (hc : s.get? 0 = some c) (hlow : c ∈ "abcdefgh".toList) :
    ∃ e, move_from_string s = .error e := by
  by_cases h5 : s.length = 5
  · rcases s with _ | ⟨c0, tail⟩
    · simp at hc
    · simp only [List.get?_cons_zero, Option.some.injEq] at hc
      subst hc
      obtain ⟨e, he⟩ := pos_from_string_lowercase c0 (tail.take 1) hlow
      refine ⟨e, ?_⟩
      unfold move_from_string
      rw [dif_pos h5]
      have htake : ((c0 :: tail).take 2) = c0 :: tail.take 1 := rfl
      rw [htake, he]
  · exact ⟨"Invalid move string", by unfold move_from_string; rw [dif_neg h5]⟩

/-! The claim theorems. -/

/-- C1: for every valid MoveMessage — from and to Positions with row and
column each in 0..7, promotion any PieceType or absent, result any GameResult
variant or absent, and any board — decoding the 128-byte frame produced by
encoding it yields a MoveMessage with the same from, to, promotion and
result, and a board with identical piece-by-square occupancy. -/
theorem c1_move_round_trip (m : MoveMessage)
    (hfr : 0 ≤ m.from_.row) (hfr8 : m.from_.row < 8)
    (hfc : 0 ≤ m.from_.col) (hfc8 : m.from_.col < 8)
    (htr : 0 ≤ m.to_.row) (htr8 : m.to_.row < 8)
    (htc : 0 ≤ m.to_.col) (htc8 : m.to_.col < 8) :
    ∃ enc, m.to_string = some enc ∧ enc.length = 128 ∧
      ∃ m2, Message.from_string enc = .ok (.move m2) ∧
        m2.from_ = m.from_ ∧ m2.to_ = m.to_ ∧
        m2.promotion_piece = m.promotion_piece ∧ m2.result = m.result ∧
        ∀ r c : Fin 8, m2.new_board r c = m.new_board r c :=
  move_encode_decode m hfr hfr8 hfc hfc8 htr htr8 htc htc8

/-- Witness for C1: the e2e4 scenario message round-trips. -/
theorem c1_move_round_trip_witness :
    ∃ enc, e2e4Msg.to_string = some enc ∧ enc.length = 128 ∧
      ∃ m2, Message.from_string enc = .ok (.move m2) ∧
        m2.from_ = e2e4Msg.from_ ∧ m2.to_ = e2e4Msg.to_ ∧
        m2.promotion_piece = e2e4Msg.promotion_piece ∧ m2.result = e2e4Msg.result ∧
        ∀ r c : Fin 8, m2.new_board r c = e2e4Msg.new_board r c :=
  c1_move_round_trip e2e4Msg (by decide) (by decide) (by decide) (by decide)
    (by decide) (by decide) (by decide) (by decide)

/-- C2: encoding any valid MoveMessage yields exactly 128 bytes, and encoding
any QuitMessage whose reason fits within the frame (length at most 117)
yields exactly 128 bytes. -/
theorem c2_frame_length :
    (∀ m : MoveMessage,
      0 ≤ m.from_.row → m.from_.row < 8 → 0 ≤ m.from_.col → m.from_.col < 8 →
      0 ≤ m.to_.row → m.to_.row < 8 → 0 ≤ m.to_.col → m.to_.col < 8 →
      ∃ enc, m.to_string = some enc ∧ enc.length = 128) ∧
    (∀ q : QuitMessage, (∀ r, q.message = some r → r.length ≤ 117) →
      (q.to_string).length = 128) := by
  constructor
  · intro m hfr hfr8 hfc hfc8 htr htr8 htc htc8
    obtain ⟨enc, henc, h128, _⟩ := move_encode_decode m hfr hfr8 hfc hfc8 htr htr8 htc htc8
    exact ⟨enc, henc, h128⟩
  · intro q hfit
    unfold QuitMessage.to_string
    rcases hq : q.message with _ | r
    · dsimp only
      apply add_padding_length
      simp
    · dsimp only
      apply add_padding_length
      have hr := hfit r hq
      simp
      omega

/-- Witness for C2: the e2e4 move message and the no-reason quit message. -/
theorem c2_frame_length_witness :
    (∃ enc, e2e4Msg.to_string = some enc ∧ enc.length = 128) ∧
    (QuitMessage.to_string ⟨none⟩).length = 128 :=
  ⟨c2_frame_length.1 e2e4Msg (by decide) (by decide) (by decide) (by decide)
      (by decide) (by decide) (by decide) (by decide),
    c2_frame_length.2 ⟨none⟩ (fun r h => nomatch h)⟩

/-- C3 counterexample: the 128-char Move frame with move token A0A1X — rank
digit 0 (a digit outside 1..8) and promotion char X (not a piece letter and
not the char 0) — decodes successfully, to origin row -1 and an absent
promotion, instead of failing with InvalidMessage. -/
theorem c3_counterexample :
    (MoveMessage.from_string c3Frame).map
      (fun m => (m.from_, m.to_, m.promotion_piece, m.result)) =
      .ok (Position.new (-1) 0, Position.new 0 0, none, none) := by
  rfl

/-- C3 amended: a square token whose file letter is lowercase does fail decode
with the move-format InvalidMessage error (while out-of-range rank digits and
unknown promotion characters are accepted, per the counterexample). -/
theorem c3_lowercase_file_rejected (s : List Char) (h128 : s.length = 128)
    (h5 : (s.splitOn ':').length = 5) (c : Char)
    (hc : ((s.splitOn ':').getD 1 []).get? 0 = some c)
    (hlow : c ∈ "abcdefgh".toList) :
    MoveMessage.from_string s = .error "Invalid move format" := by
  obtain ⟨e, he⟩ := move_from_string_lowercase ((s.splitOn ':').getD 1 []) c hc hlow
  unfold MoveMessage.from_string
  rw [if_neg (fun hne => hne h128)]
  dsimp only
  rw [if_neg (fun hne => hne h5), he]

/-- Witness for the amended C3 at a concrete frame with origin square a1. -/
theorem c3_lowercase_file_rejected_witness :
    MoveMessage.from_string c3LowercaseFrame = .error "Invalid move format" :=
  c3_lowercase_file_rejected c3LowercaseFrame (by decide) (by decide) 'a'
    (by decide) (by decide)

/-- C4 counterexample: decoding the frame produced by encoding the no-reason
QuitMessage does not yield an absent reason. -/
theorem c4_counterexample :
    QuitMessage.from_string (QuitMessage.to_string ⟨none⟩) ≠ .ok ⟨none⟩ := by
  decide

/-- C4 amended: encoding the no-reason QuitMessage and decoding the resulting
frame yields a present but empty reason (the padded frame splits into exactly
three colon-delimited parts, so the empty middle part is taken as the
reason). -/
theorem c4_quit_none_round_trip :
    QuitMessage.from_string (QuitMessage.to_string ⟨none⟩) = .ok ⟨some []⟩ := by
  decide

/-- C5 (code bug): a 128-byte frame that is valid UTF-8 (it is fixed by lossy
conversion) on which the byte-level decoder panics — the euro-sign move token
puts byte 2 of the token off a char boundary, so the source's slice
of the origin square panics instead of returning a decode failure. -/
theorem c5_decode_panics :
    Message.from_string_bytes c5Frame = none ∧ c5Frame.length = 128 ∧
    utf8Encode (utf8Chars c5Frame) = c5Frame :=
  ⟨rfl, rfl, rfl⟩

/-- C6 counterexample: with only the first 64 bytes of a decodable quit frame
buffered, read returns WouldBlock but consumes them; after the remaining 64
bytes arrive, read still returns WouldBlock rather than the message — while
reading the whole 128-byte frame at once does decode it. -/
theorem c6_counterexample :
    TcpConnection.read (quitFrameBytes.take 64) =
      (some (.error .WouldBlock), []) ∧
    TcpConnection.read (quitFrameBytes.drop 64) =
      (some (.error .WouldBlock), []) ∧
    TcpConnection.read quitFrameBytes =
      (some (.ok (.quit ⟨some []⟩)), []) :=
  ⟨rfl, rfl, rfl⟩

/-- C6 amended: read on a socket with fewer than 128 bytes buffered returns
WouldBlock — not an Io error and not a message — but the buffered bytes are
consumed into the discarded local buffer, so a later read sees only bytes
that arrive afterwards. -/
theorem c6_would_block (avail : List Nat) (h : avail.length < 128) :
    TcpConnection.read avail = (some (.error .WouldBlock), []) := by
  unfold TcpConnection.read read_exact_128
  rw [if_neg (by omega)]

/-- Witness for the amended C6 at a 64-byte buffer. -/
theorem c6_would_block_witness :
    TcpConnection.read (quitFrameBytes.take 64) = (some (.error .WouldBlock), []) :=
  c6_would_block _ (by decide)

/-- C7: any input whose length is not exactly 128 fails with the
length-related InvalidMessage error (never a panic, never a partial message),
at the byte level for the dispatcher and at the string level for both
per-kind decoders. -/
theorem c7_length_check :
    (∀ bs : List Nat, bs.length ≠ 128 →
      Message.from_string_bytes bs = some (.error "Message must be 128 characters")) ∧
    (∀ s : List Char, s.length ≠ 128 →
      MoveMessage.from_string s = .error "Message must be 128 characters") ∧
    (∀ s : List Char, s.length ≠ 128 →
      QuitMessage.from_string s = .error "Message must be 128 characters") := by
  refine ⟨?_, ?_, ?_⟩
  · intro bs h
    unfold Message.from_string_bytes
    rw [if_pos h]
  · intro s h
    unfold MoveMessage.from_string
    rw [if_pos h]
  · intro s h
    unfold QuitMessage.from_string
    rw [if_pos h]

/-- Witness for C7 at the empty input. -/
theorem c7_length_check_witness :
    Message.from_string_bytes [] = some (.error "Message must be 128 characters") ∧
    MoveMessage.from_string [] = .error "Message must be 128 characters" ∧
    QuitMessage.from_string [] = .error "Message must be 128 characters" :=
  ⟨c7_length_check.1 [] (by decide), c7_length_check.2.1 [] (by decide),
    c7_length_check.2.2 [] (by decide)⟩

/-- C9 (code bug): a 128-byte frame, valid UTF-8 and fixed by lossy
conversion, whose first 9 bytes are neither identifier literal; the decoder
panics on the identifier slice (byte 9 is inside the euro sign) instead of
returning the unrecognized-identifier error. -/
theorem c9_dispatch_panics :
    Message.from_string_bytes c9Frame = none ∧ c9Frame.length = 128 ∧
    c9Frame.take 9 ≠ strBytes "ChessMOVE" ∧ c9Frame.take 9 ≠ strBytes "ChessQUIT" ∧
    utf8Encode (utf8Chars c9Frame) = c9Frame :=
  ⟨rfl, rfl, by decide, by decide, rfl⟩

/-- C10: a 128-char Move frame that passes the length check, the ChessMOVE
identifier check, the five-part split check and the move and result token
parses decodes successfully regardless of the content of its FEN segment. -/
theorem c10_fen_ignored (s : List Char) (h128 : s.length = 128)
    (hid : s.take 9 = "ChessMOVE".toList)
    (h5 : (s.splitOn ':').length = 5)
    (hmv : exceptIsOk (move_from_string ((s.splitOn ':').getD 1 [])) = true)
    (hres : exceptIsOk (game_result_from_string ((s.splitOn ':').getD 2 [])) = true) :
    exceptIsOk (MoveMessage.from_string s) = true := by
  unfold MoveMessage.from_string
  rw [if_neg (fun hne => hne h128)]
  dsimp only
  rw [if_neg (fun hne => hne h5)]
  rcases hmv2 : move_from_string ((s.splitOn ':').getD 1 []) with e | ⟨fromP, toP, promo⟩
  · rw [hmv2] at hmv
    exact absurd hmv (by simp [exceptIsOk])
  · rcases hres2 : game_result_from_string ((s.splitOn ':').getD 2 []) with e | result
    · rw [hres2] at hres
      exact absurd hres (by simp [exceptIsOk])
    · rfl

/-- Witness for C10 at a frame whose FEN segment is nonsense. -/
theorem c10_fen_ignored_witness :
    exceptIsOk (MoveMessage.from_string c10Frame) = true :=
  c10_fen_ignored c10Frame (by decide) (by decide) (by decide) (by decide) (by decide)

theorem takeWhile_replicate_none (k : Nat) :
    ∀ rest : List (Option Piece), (rest = [] ∨ ∃ p t, rest = some p :: t) →
    ((List.replicate k (none : Option Piece) ++ rest).takeWhile (fun o => o.isNone)
        = List.replicate k none) ∧
    ((List.replicate k (none : Option Piece) ++ rest).dropWhile (fun o => o.isNone)
        = rest) := by
  induction k with
  | zero =>
    intro rest hrest
    rcases hrest with rfl | ⟨p, t, rfl⟩
    · simp
    · simp [List.takeWhile, List.dropWhile]
  | succ k ih =>
    intro rest hrest
    obtain ⟨ih1, ih2⟩ := ih rest hrest
    constructor
    · rw [List.replicate_succ, List.cons_append,
        List.takeWhile_cons_of_pos (by simp), ih1]
    · rw [List.replicate_succ, List.cons_append,
        List.dropWhile_cons_of_pos (by simp), ih2]

theorem fenRank_eq_specRank : ∀ (cells : List (Option Piece)) (cnt : Nat),
    cnt + cells.length ≤ 8 →
    fenRank cells cnt = specRank (List.replicate cnt none ++ cells)
  | [], cnt => by
    intro h
    simp only [fenRank]
    by_cases h0 : cnt = 0
    · simp [h0, specRank]
    · rw [if_neg h0, repr_digit_toList (by omega) (by simpa using h)]
      obtain ⟨k, rfl⟩ : ∃ k, cnt = k + 1 := ⟨cnt - 1, by omega⟩
      rw [List.append_nil, List.replicate_succ]
      simp only [specRank]
      obtain ⟨ht, hd⟩ := takeWhile_replicate_none k ([] : List (Option Piece)) (Or.inl rfl)
      rw [List.append_nil] at ht hd
      rw [ht, hd]
      simp only [List.length_replicate, specRank]
      congr 2
      omega
  | none :: rest, cnt => by
    intro h
    simp only [fenRank]
    rw [fenRank_eq_specRank rest (cnt + 1) (by simp at h ⊢; omega)]
    rw [List.replicate_succ', List.append_assoc, List.singleton_append]
  | some p :: rest, cnt => by
    intro h
    simp only [fenRank]
    rw [fenRank_eq_specRank rest 0 (by simp at h ⊢; omega)]
    by_cases h0 : cnt = 0
    · subst h0
      rw [if_pos rfl]
      simp only [List.replicate_zero, List.nil_append]
      rw [pieceFenChar_eq_specPieceLetter]
      simp only [specRank]
    · obtain ⟨k, rfl⟩ : ∃ k, cnt = k + 1 := ⟨cnt - 1, by omega⟩
      rw [if_neg h0, repr_digit_toList (by omega) (by simp at h; omega)]
      rw [List.replicate_succ]
      simp only [List.cons_append, List.nil_append, List.replicate_zero]
      simp only [specRank]
      obtain ⟨ht, hd⟩ := takeWhile_replicate_none k (some p :: rest) (Or.inr ⟨p, rest, rfl⟩)
      rw [ht, hd]
      simp only [List.length_replicate, specRank, pieceFenChar_eq_specPieceLetter]
      congr 2
      omega

/-- C8: for every board, the FEN emission equals the spec-side description —
ranks from row index 7 down to row index 0 separated by a slash, each rank
scanning columns 0 through 7 with every maximal run of consecutive empty
squares replaced by its length as a single digit and every occupied square by
its piece letter, uppercase for White and lowercase for Black. -/
theorem c8_fen_matches_spec (b : Board) : board_to_fen b = fenSpec b := by
  have hmain : ∀ z : Int, fenRank ((List.range 8).map fun col =>
      b.get (Position.new z (Int.ofNat col))) 0 =
      specRank ((List.range 8).map fun col => b.get (Position.new z (Int.ofNat col))) := by
    intro z
    have hx := fenRank_eq_specRank ((List.range 8).map fun col =>
      b.get (Position.new z (Int.ofNat col))) 0 (by simp)
    simpa using hx
  unfold board_to_fen fenSpec
  congr 1
  apply List.ext_getElem
  · simp
  · intro i hi1 hi2
    have hi8 : i < 8 := by simpa using hi1
    simp only [List.getElem_map, List.getElem_range, List.getElem_reverse,
      List.length_reverse, List.length_range, List.length_map]
    rw [hmain]
    have hieq : (7 : Int) - Int.ofNat i = Int.ofNat (8 - 1 - i) := by
      simp only [Int.ofNat_eq_coe]
      omega
    rw [hieq]

end ChessTcp
